import Mathlib

/-!
Shallow embedding of the xv6-style buffer cache (kernel/bio.c): a fixed set
of buffer slots, HASHSIZE hash-bucket lists and one free list per CPU.
Lists are modelled as lists of slot indices (head of the Lean list is the
sentinel's `next`, i.e. the most-recently-inserted end); the doubly linked
pointer surgery of the C code becomes erase/prepend/dropLast on these lists.
Machine integers (`uint`) are Nat reduced mod 2^32 where overflow matters.
Panics become `Except.error` values.
-/

namespace Bio

/-- HASHSIZE from bio.c line 26. -/
def HASHSIZE : Nat := 13

/-- 2^32: `uint` arithmetic in the C source is arithmetic mod this value. -/
def UINTMOD : Nat := 4294967296

/-- `uint` decrement `x--`: wraps below zero. -/
def uintDec (n : Nat) : Nat := (n + (UINTMOD - 1)) % UINTMOD

/-- A buffer slot (struct buf): identity, valid flag, reference count,
recency timestamp, sleeplock state and payload. `refcnt` is a `uint`
(modelled from the spec: buf.h is not part of src/, the spec calls it an
unsigned count). The payload is opaque, one Nat. -/
structure Buf where
  dev : Nat
  blockno : Nat
  valid : Bool
  refcnt : Nat
  timestamp : Nat
  locked : Bool
  data : Nat
deriving Repr, DecidableEq

/-- The zero-initialised buffer (static kernel memory), with a given
timestamp (binit stores `ticks` into each slot's timestamp). -/
def buf0 (t : Nat) : Buf :=
  { dev := 0, blockno := 0, valid := false, refcnt := 0, timestamp := t,
    locked := false, data := 0 }

/-- The bcache state: NBUF slots (`bufs.length` plays the role of NBUF),
HASHSIZE bucket lists, NCPU free lists (`freelist.length` plays the role of
NCPU), plus a log of disk writes performed by bwrite. Each bucket/free list
is the sequence of slot indices from the sentinel's `next` (head, most
recent) to the sentinel's `prev` (tail, least recent). -/
structure BCache where
  bufs : List Buf
  heads : List (List Nat)
  freelist : List (List Nat)
  dwrites : List (Nat × Nat × Nat)
deriving Repr, DecidableEq

/-- Read slot `b` (out-of-range reads yield the zero buffer; the C code
never indexes out of range). -/
def getBuf (st : BCache) (b : Nat) : Buf := st.bufs.getD b (buf0 0)

/-- Bucket list number `i`. -/
def bucket (st : BCache) (i : Nat) : List Nat := st.heads.getD i []

/-- Free list of CPU `c`. -/
def pool (st : BCache) (c : Nat) : List Nat := st.freelist.getD c []

/-- The three panics of bio.c. -/
inductive Fault where
  | freelistNotFree
  | noBuffers
  | notHolding
deriving Repr, DecidableEq

/-- binit: empty buckets, empty free lists, then every slot is pushed at
the head of CPU 0's free list in index order, so the final free list is
[nbuf-1, ..., 1, 0]; each slot's timestamp is set to `ticks`. -/
def binit (nbuf ncpu ticks : Nat) : BCache :=
  { bufs := List.replicate nbuf (buf0 ticks),
    heads := List.replicate HASHSIZE [],
    freelist := (List.replicate ncpu []).set 0 ((List.range nbuf).reverse),
    dwrites := [] }

/-- hash from bio.c line 64; the C expression is evaluated in `uint`. -/
def hash (dev blockno : Nat) : Nat :=
  ((1234 * dev + 5678 * blockno + 90) % UINTMOD) % HASHSIZE

/-- The hit scan of bget: walk bucket `i` from the head looking for a slot
with matching identity. -/
def findInBucket (st : BCache) (i dev blockno : Nat) : Option Nat :=
  (bucket st i).find? fun b =>
    (getBuf st b).dev == dev && (getBuf st b).blockno == blockno

/-- State after a bget cache hit on slot `b`: refcnt++, timestamp := ticks,
sleeplock acquired. The bucket and free lists are untouched. -/
def hitState (st : BCache) (b ticks : Nat) : BCache :=
  let nb := { getBuf st b with
              refcnt := ((getBuf st b).refcnt + 1) % UINTMOD,
              timestamp := ticks, locked := true }
  { st with bufs := st.bufs.set b nb }

/-- State after recycling slot `b` from free list `nc` into bucket `i`:
unlink from the free-list tail, link at the bucket head, set the new
identity, valid := 0, refcnt := 1, sleeplock acquired. -/
def recycleState (st : BCache) (nc i dev blockno b : Nat) : BCache :=
  let nb := { getBuf st b with
              dev := dev, blockno := blockno, valid := false,
              refcnt := 1, locked := true }
  { st with
    heads := st.heads.set i (b :: bucket st i),
    freelist := st.freelist.set nc (pool st nc).dropLast,
    bufs := st.bufs.set b nb }

/-- One free-list scan of bget: the loop starts at `freelist.prev` (the
tail) and its body either panics ("bget: freelist is not free!") or
unlinks-and-returns, so it only ever examines the tail slot. `none` means
the list was empty and the caller moves on to the next CPU. -/
def recycleFrom (st : BCache) (nc i dev blockno : Nat) :
    Option (Except Fault (BCache × Nat)) :=
  match (pool st nc).getLast? with
  | none => none
  | some b =>
    if (getBuf st b).refcnt ≠ 0 then some (.error .freelistNotFree)
    else some (.ok (recycleState st nc i dev blockno b, b))

/-- Try the given CPUs' free lists in order; panic "bget: no buffers" when
all are empty. -/
def tryShards (st : BCache) (cpus : List Nat) (i dev blockno : Nat) :
    Except Fault (BCache × Nat) :=
  match cpus with
  | [] => .error .noBuffers
  | nc :: rest =>
    match recycleFrom st nc i dev blockno with
    | some r => r
    | none => tryShards st rest i dev blockno

/-- The CPU order bget uses: its own CPU first, then 0..ncpu-1 skipping
itself. -/
def shardOrder (ncpu cpu : Nat) : List Nat :=
  cpu :: (List.range ncpu).filter (fun nc => nc != cpu)

/-- bget: hit scan on the identity's bucket, else recycle from the free
lists. -/
def bget (dev blockno cpu ticks : Nat) (st : BCache) :
    Except Fault (BCache × Nat) :=
  match findInBucket st (hash dev blockno) dev blockno with
  | some b => .ok (hitState st b ticks, b)
  | none => tryShards st (shardOrder st.freelist.length cpu)
      (hash dev blockno) dev blockno

/-- bread: bget, then a synchronous disk read (virtio_disk_rw with write=0,
modelled by the ambient `diskData`) when the slot is not valid. -/
def bread (dev blockno cpu ticks diskData : Nat) (st : BCache) :
    Except Fault (BCache × Nat) :=
  match bget dev blockno cpu ticks st with
  | .error e => .error e
  | .ok (st1, b) =>
    if (getBuf st1 b).valid then .ok (st1, b)
    else
      let nb := { getBuf st1 b with data := diskData, valid := true }
      .ok ({ st1 with bufs := st1.bufs.set b nb }, b)

/-- bwrite: panic unless the sleeplock is held, else a synchronous disk
write (virtio_disk_rw with write=1), modelled as appending to the write
log. Nothing else changes. -/
def bwrite (b : Nat) (st : BCache) : Except Fault BCache :=
  if (getBuf st b).locked then
    .ok { st with dwrites := st.dwrites ++
      [((getBuf st b).dev, (getBuf st b).blockno, (getBuf st b).data)] }
  else .error .notHolding

/-- brelse when the decremented refcnt stays nonzero: release the
sleeplock, decrement refcnt, touch no list. -/
def relStateKeep (st : BCache) (b : Nat) : BCache :=
  let nb := { getBuf st b with
              locked := false, refcnt := uintDec (getBuf st b).refcnt }
  { st with bufs := st.bufs.set b nb }

/-- brelse when the decremented refcnt is zero: additionally unlink `b`
from whatever list holds it (pointer surgery `b->next->prev = b->prev;
b->prev->next = b->next`) and push it at the head of the current CPU's
free list. -/
def relStateMove (st : BCache) (b cpu : Nat) : BCache :=
  let st1 := relStateKeep st b
  let st2 := { st1 with heads := st1.heads.map (fun l : List Nat => l.erase b),
                        freelist := st1.freelist.map (fun l : List Nat => l.erase b) }
  { st2 with freelist := st2.freelist.set cpu (b :: pool st2 cpu) }

/-- brelse: panic unless the sleeplock is held; release it, decrement
refcnt under the bucket lock, and move the slot to the head of the current
CPU's free list exactly when the new refcnt is zero. -/
def brelse (b cpu : Nat) (st : BCache) : Except Fault BCache :=
  if (getBuf st b).locked then
    if uintDec (getBuf st b).refcnt = 0 then .ok (relStateMove st b cpu)
    else .ok (relStateKeep st b)
  else .error .notHolding

/-- bpin: refcnt++ under the bucket lock, nothing else. -/
def bpin (b : Nat) (st : BCache) : BCache :=
  let nb := { getBuf st b with refcnt := ((getBuf st b).refcnt + 1) % UINTMOD }
  { st with bufs := st.bufs.set b nb }

/-- bunpin: refcnt-- under the bucket lock, nothing else: no precondition
check and no list movement. -/
def bunpin (b : Nat) (st : BCache) : BCache :=
  let nb := { getBuf st b with refcnt := uintDec (getBuf st b).refcnt }
  { st with bufs := st.bufs.set b nb }

/-- States reachable from initialisation by fetch (bread) and release
(brelse) operations. `cpu < freelist.length` reflects that cpuid() is
always a valid CPU index. -/
inductive Reach : BCache → Prop where
  | init (nbuf ncpu ticks : Nat) (h : 0 < ncpu) : Reach (binit nbuf ncpu ticks)
  | fetch (st st' : BCache) (b dev blockno cpu ticks dat : Nat)
      (hr : Reach st)
      (hs : bread dev blockno cpu ticks dat st = .ok (st', b)) : Reach st'
  | rel (st st' : BCache) (b cpu : Nat) (hr : Reach st)
      (hc : cpu < st.freelist.length)
      (hs : brelse b cpu st = .ok st') : Reach st'

/-- Number of occurrences of slot index `i` across a family of lists. -/
def countSum (ls : List (List Nat)) (i : Nat) : Nat :=
  (ls.map fun l => l.count i).sum

/-- Number of lists in the family that contain `i`. -/
def containCount (ls : List (List Nat)) (i : Nat) : Nat :=
  ls.countP (fun l => decide (i ∈ l))

/-- Total occurrences of slot `i` over all bucket lists and free lists. -/
def occ (st : BCache) (i : Nat) : Nat :=
  countSum st.heads i + countSum st.freelist i

/-- Total number of linked-in slot positions over all lists. -/
def totalLen (st : BCache) : Nat :=
  (st.heads.map List.length).sum + (st.freelist.map List.length).sum

/-- All list entries are real slot indices. -/
def InRange (st : BCache) : Prop :=
  (∀ l ∈ st.heads, ∀ x ∈ l, x < st.bufs.length) ∧
  (∀ l ∈ st.freelist, ∀ x ∈ l, x < st.bufs.length)

/-- Every slot on a free list is unreferenced and unlocked. -/
def FreeOk (st : BCache) : Prop :=
  ∀ l ∈ st.freelist, ∀ b ∈ l, (getBuf st b).refcnt = 0 ∧
    (getBuf st b).locked = false

/-- The bcache structural invariant. -/
def Wf (st : BCache) : Prop :=
  st.heads.length = HASHSIZE ∧ (∀ i < st.bufs.length, occ st i = 1) ∧
    InRange st ∧ FreeOk st



/-- Extract the state of a successful bget/bread (dummy on error). -/
def okState (e : Except Fault (BCache × Nat)) : BCache :=
  match e with
  | .ok p => p.1
  | .error _ => binit 0 0 0

/-- Extract the returned slot of a successful bget/bread (dummy on error). -/
def okSlot (e : Except Fault (BCache × Nat)) : Nat :=
  match e with
  | .ok p => p.2
  | .error _ => 0

/-- Extract the state of a successful brelse (dummy on error). -/
def okRel (e : Except Fault BCache) : BCache :=
  match e with
  | .ok s => s
  | .error _ => binit 0 0 0

/-- The state bwrite produces when the lock is held. -/
def bwriteState (st : BCache) (b : Nat) : BCache :=
  { st with dwrites := st.dwrites ++
      [((getBuf st b).dev, (getBuf st b).blockno, (getBuf st b).data)] }

/-- Two-slot, one-CPU cache after fetching (dev 1, block 0): block 0 lands
in slot 0, bucket 11. -/
def demo1 : BCache := okState (bread 1 0 0 1 100 (binit 2 1 0))

/-- After also fetching (dev 1, block 13): block 13 lands in slot 1, at the
head of the same bucket 11, so the bucket list is [1, 0]. -/
def demo2 : BCache := okState (bread 1 13 0 2 200 demo1)

/-- demo2 after releasing slot 0 (block 0): slot 0 moves to the free
list. -/
def demo3 : BCache := okRel (brelse 0 0 demo2)

/-- demo3 after releasing slot 1 (block 13): the free list is now [1, 0],
slot 1 most recently freed. -/
def demo4 : BCache := okRel (brelse 1 0 demo3)

/-- One-slot, one-CPU cache right after bget of (dev 1, block 0): slot 0 is
locked with refcnt 1. -/
def relDemo : BCache := okState (bget 1 0 0 5 (binit 1 1 0))

/-- relDemo with slot 0 additionally pinned (refcnt 2). -/
def relDemoPinned : BCache := bpin 0 relDemo

/-- A corrupt state: slot 0 sits on CPU 0's free list with refcnt 1. -/
def badState : BCache :=
  { bufs := [{ dev := 0, blockno := 0, valid := false, refcnt := 1,
               timestamp := 0, locked := false, data := 0 }],
    heads := List.replicate HASHSIZE [],
    freelist := [[0]],
    dwrites := [] }

/-! ### Generic list lemmas -/

theorem getD_lt {α : Type} (ls : List α) (n : Nat) (d : α) (h : n < ls.length) :
    ls.getD n d = ls[n] := by
  rw [List.getD_eq_getElem?_getD, List.getElem?_eq_getElem h]; rfl

theorem getD_ge {α : Type} (ls : List α) (n : Nat) (d : α) (h : ls.length ≤ n) :
    ls.getD n d = d := by
  rw [List.getD_eq_getElem?_getD, List.getElem?_eq_none h]; rfl

theorem getD_set_self {α : Type} (ls : List α) (n : Nat) (v d : α)
    (h : n < ls.length) : (ls.set n v).getD n d = v := by
  rw [List.getD_eq_getElem?_getD, List.getElem?_set_self h]; rfl

theorem getD_set_ne {α : Type} (ls : List α) (m n : Nat) (v d : α) (h : m ≠ n) :
    (ls.set m v).getD n d = ls.getD n d := by
  rw [List.getD_eq_getElem?_getD, List.getElem?_set_ne h,
    ← List.getD_eq_getElem?_getD]

theorem count_cons_ite (x a : Nat) (l : List Nat) :
    (a :: l).count x = l.count x + (if x = a then 1 else 0) := by
  rw [List.count_cons]
  by_cases h : a = x
  · subst h; simp
  · simp [h, Ne.symm h]

theorem count_singleton_ite (x a : Nat) :
    ([a] : List Nat).count x = if x = a then 1 else 0 := by
  simpa using count_cons_ite x a []

theorem countSum_nil (i : Nat) : countSum [] i = 0 := rfl

theorem countSum_cons (l : List Nat) (ls : List (List Nat)) (i : Nat) :
    countSum (l :: ls) i = l.count i + countSum ls i := by
  simp [countSum]

theorem count_le_countSum (ls : List (List Nat)) (l : List Nat) (i : Nat)
    (h : l ∈ ls) : l.count i ≤ countSum ls i := by
  induction ls with
  | nil => cases h
  | cons a t ih =>
    rcases List.mem_cons.1 h with rfl | h2
    · rw [countSum_cons]; omega
    · have := ih h2; rw [countSum_cons]; omega

theorem countSum_pos_exists (ls : List (List Nat)) (i : Nat)
    (h : 0 < countSum ls i) : ∃ l, l ∈ ls ∧ i ∈ l := by
  induction ls with
  | nil => simp [countSum] at h
  | cons a t ih =>
    rw [countSum_cons] at h
    by_cases ha : i ∈ a
    · exact ⟨a, List.mem_cons_self a t, ha⟩
    · have h0 : a.count i = 0 := List.count_eq_zero.2 ha
      obtain ⟨l, hl, hil⟩ := ih (by omega)
      exact ⟨l, List.mem_cons_of_mem a hl, hil⟩

theorem countSum_set (ls : List (List Nat)) (k : Nat) (x : List Nat) (i : Nat)
    (hk : k < ls.length) :
    countSum (ls.set k x) i + (ls.getD k []).count i
      = countSum ls i + x.count i := by
  induction ls generalizing k with
  | nil => simp at hk
  | cons a t ih =>
    cases k with
    | zero =>
      simp only [List.set_cons_zero, countSum_cons, List.getD_cons_zero]
      omega
    | succ m =>
      have hm : m < t.length := by simpa using hk
      have := ih m hm
      simp only [List.set_cons_succ, countSum_cons, List.getD_cons_succ]
      omega

theorem count_erase_self_add (l : List Nat) (b : Nat) :
    (l.erase b).count b + (if b ∈ l then 1 else 0) = l.count b := by
  by_cases h : b ∈ l
  · have h1 : 0 < l.count b := List.count_pos_iff.2 h
    rw [List.count_erase_self, if_pos h]
    omega
  · rw [List.erase_of_not_mem h, if_neg h]; omega

theorem containCount_nil (b : Nat) : containCount [] b = 0 := rfl

theorem containCount_cons (a : List Nat) (t : List (List Nat)) (b : Nat) :
    containCount (a :: t) b = containCount t b + (if b ∈ a then 1 else 0) := by
  simp [containCount, List.countP_cons]

theorem countSum_map_erase_ne (ls : List (List Nat)) (b i : Nat) (h : i ≠ b) :
    countSum (ls.map fun l => l.erase b) i = countSum ls i := by
  induction ls with
  | nil => rfl
  | cons a t ih =>
    simp only [List.map_cons, countSum_cons, ih, List.count_erase_of_ne h]

theorem countSum_map_erase_self (ls : List (List Nat)) (b : Nat) :
    countSum (ls.map fun l => l.erase b) b + containCount ls b
      = countSum ls b := by
  induction ls with
  | nil => rfl
  | cons a t ih =>
    have h1 := count_erase_self_add a b
    simp only [List.map_cons, countSum_cons, containCount_cons]
    omega

theorem containCount_le (ls : List (List Nat)) (b : Nat) :
    containCount ls b ≤ countSum ls b := by
  induction ls with
  | nil => exact Nat.le_refl 0
  | cons a t ih =>
    rw [containCount_cons, countSum_cons]
    by_cases h : b ∈ a
    · have h1 : 0 < a.count b := List.count_pos_iff.2 h
      rw [if_pos h]; omega
    · rw [if_neg h]; omega

theorem containCount_pos (ls : List (List Nat)) (b : Nat)
    (h : 0 < countSum ls b) : 0 < containCount ls b := by
  obtain ⟨l, hl, hbl⟩ := countSum_pos_exists ls b h
  induction ls with
  | nil => cases hl
  | cons a t ih =>
    rw [containCount_cons]
    rcases List.mem_cons.1 hl with rfl | h2
    · rw [if_pos hbl]; omega
    · have h3 : 0 < countSum t b :=
        lt_of_lt_of_le (List.count_pos_iff.2 hbl) (count_le_countSum t l b h2)
      have := ih h3 h2
      omega


/-! ### State-shape lemmas (all definitional) -/

theorem getBuf_eq (st : BCache) (b : Nat) :
    getBuf st b = st.bufs.getD b (buf0 0) := rfl

theorem binit_bufs (n c t : Nat) :
    (binit n c t).bufs = List.replicate n (buf0 t) := rfl

theorem binit_heads (n c t : Nat) :
    (binit n c t).heads = List.replicate HASHSIZE [] := rfl

theorem binit_freelist (n c t : Nat) :
    (binit n c t).freelist
      = (List.replicate c []).set 0 ((List.range n).reverse) := rfl

theorem hitState_heads (st : BCache) (b t : Nat) :
    (hitState st b t).heads = st.heads := rfl

theorem hitState_freelist (st : BCache) (b t : Nat) :
    (hitState st b t).freelist = st.freelist := rfl

theorem hitState_bufs (st : BCache) (b t : Nat) :
    (hitState st b t).bufs = st.bufs.set b
      { getBuf st b with
        refcnt := ((getBuf st b).refcnt + 1) % UINTMOD,
        timestamp := t, locked := true } := rfl

theorem recycleState_heads (st : BCache) (nc i dev blockno b : Nat) :
    (recycleState st nc i dev blockno b).heads
      = st.heads.set i (b :: bucket st i) := rfl

theorem recycleState_freelist (st : BCache) (nc i dev blockno b : Nat) :
    (recycleState st nc i dev blockno b).freelist
      = st.freelist.set nc (pool st nc).dropLast := rfl

theorem recycleState_bufs (st : BCache) (nc i dev blockno b : Nat) :
    (recycleState st nc i dev blockno b).bufs = st.bufs.set b
      { getBuf st b with
        dev := dev, blockno := blockno, valid := false,
        refcnt := 1, locked := true } := rfl

theorem relStateKeep_heads (st : BCache) (b : Nat) :
    (relStateKeep st b).heads = st.heads := rfl

theorem relStateKeep_freelist (st : BCache) (b : Nat) :
    (relStateKeep st b).freelist = st.freelist := rfl

theorem relStateKeep_bufs (st : BCache) (b : Nat) :
    (relStateKeep st b).bufs = st.bufs.set b
      { getBuf st b with
        locked := false, refcnt := uintDec (getBuf st b).refcnt } := rfl

theorem relStateMove_heads (st : BCache) (b cpu : Nat) :
    (relStateMove st b cpu).heads
      = st.heads.map (fun l => l.erase b) := rfl

theorem relStateMove_freelist (st : BCache) (b cpu : Nat) :
    (relStateMove st b cpu).freelist
      = (st.freelist.map (fun l => l.erase b)).set cpu
          (b :: (st.freelist.map (fun l => l.erase b)).getD cpu []) := rfl

theorem relStateMove_bufs (st : BCache) (b cpu : Nat) :
    (relStateMove st b cpu).bufs = (relStateKeep st b).bufs := rfl

/-! ### Equation lemmas for the operations -/

theorem recycleFrom_none (st : BCache) (nc i dev blockno : Nat)
    (h : (pool st nc).getLast? = none) :
    recycleFrom st nc i dev blockno = none := by
  unfold recycleFrom; rw [h]

theorem recycleFrom_panic (st : BCache) (nc i dev blockno b : Nat)
    (hb : (pool st nc).getLast? = some b) (hr : (getBuf st b).refcnt ≠ 0) :
    recycleFrom st nc i dev blockno = some (.error .freelistNotFree) := by
  unfold recycleFrom
  rw [hb]
  show (if (getBuf st b).refcnt ≠ 0
      then some (Except.error Fault.freelistNotFree)
      else some (Except.ok (recycleState st nc i dev blockno b, b))) = _
  rw [if_pos hr]

theorem recycleFrom_take (st : BCache) (nc i dev blockno b : Nat)
    (hb : (pool st nc).getLast? = some b) (hr : (getBuf st b).refcnt = 0) :
    recycleFrom st nc i dev blockno
      = some (.ok (recycleState st nc i dev blockno b, b)) := by
  unfold recycleFrom
  rw [hb]
  show (if (getBuf st b).refcnt ≠ 0
      then some (Except.error Fault.freelistNotFree)
      else some (Except.ok (recycleState st nc i dev blockno b, b))) = _
  rw [if_neg (fun hcon => hcon hr)]

theorem tryShards_nil (st : BCache) (i dev blockno : Nat) :
    tryShards st [] i dev blockno = .error .noBuffers := rfl

theorem tryShards_cons_none (st : BCache) (nc : Nat) (rest : List Nat)
    (i dev blockno : Nat) (h : recycleFrom st nc i dev blockno = none) :
    tryShards st (nc :: rest) i dev blockno
      = tryShards st rest i dev blockno := by
  conv_lhs => unfold tryShards
  rw [h]

theorem tryShards_cons_some (st : BCache) (nc : Nat) (rest : List Nat)
    (i dev blockno : Nat) (r : Except Fault (BCache × Nat))
    (h : recycleFrom st nc i dev blockno = some r) :
    tryShards st (nc :: rest) i dev blockno = r := by
  unfold tryShards; rw [h]

theorem bget_hit (st : BCache) (dev blockno cpu ticks b : Nat)
    (h : findInBucket st (hash dev blockno) dev blockno = some b) :
    bget dev blockno cpu ticks st = .ok (hitState st b ticks, b) := by
  unfold bget; rw [h]

theorem bget_miss (st : BCache) (dev blockno cpu ticks : Nat)
    (h : findInBucket st (hash dev blockno) dev blockno = none) :
    bget dev blockno cpu ticks st
      = tryShards st (shardOrder st.freelist.length cpu)
          (hash dev blockno) dev blockno := by
  unfold bget; rw [h]

theorem bread_ok_valid (st st1 : BCache) (dev blockno cpu ticks dat b : Nat)
    (h : bget dev blockno cpu ticks st = .ok (st1, b))
    (hv : (getBuf st1 b).valid = true) :
    bread dev blockno cpu ticks dat st = .ok (st1, b) := by
  unfold bread
  rw [h]
  show (if (getBuf st1 b).valid then _ else _) = _
  rw [if_pos hv]

theorem bread_ok_invalid (st st1 : BCache) (dev blockno cpu ticks dat b : Nat)
    (h : bget dev blockno cpu ticks st = .ok (st1, b))
    (hv : (getBuf st1 b).valid = false) :
    bread dev blockno cpu ticks dat st
      = .ok ({ st1 with bufs := st1.bufs.set b { getBuf st1 b with data := dat, valid := true } }, b) := by
  unfold bread
  rw [h]
  show (if (getBuf st1 b).valid then _ else _) = _
  rw [if_neg (by simp [hv])]

theorem brelse_not_locked (st : BCache) (b cpu : Nat)
    (h : (getBuf st b).locked = false) :
    brelse b cpu st = .error .notHolding := by
  unfold brelse; rw [if_neg (by simp [h])]

theorem brelse_keep (st : BCache) (b cpu : Nat)
    (hlock : (getBuf st b).locked = true)
    (h0 : uintDec (getBuf st b).refcnt ≠ 0) :
    brelse b cpu st = .ok (relStateKeep st b) := by
  unfold brelse; rw [if_pos hlock, if_neg h0]

theorem brelse_move (st : BCache) (b cpu : Nat)
    (hlock : (getBuf st b).locked = true)
    (h0 : uintDec (getBuf st b).refcnt = 0) :
    brelse b cpu st = .ok (relStateMove st b cpu) := by
  unfold brelse; rw [if_pos hlock, if_pos h0]

/-! ### Slot-access lemmas -/

theorem locked_lt (st : BCache) (b : Nat) (h : (getBuf st b).locked = true) :
    b < st.bufs.length := by
  by_contra h2
  push_neg at h2
  rw [getBuf_eq, getD_ge _ _ _ h2] at h
  simp [buf0] at h

theorem getD_buf_set_ne (bl : List Buf) (b y : Nat) (v : Buf) (h : y ≠ b) :
    (bl.set b v).getD y (buf0 0) = bl.getD y (buf0 0) :=
  getD_set_ne bl b y v (buf0 0) (fun e => h e.symm)

theorem getD_buf_set_fields (bl : List Buf) (b : Nat) (v : Buf)
    (hr : v.refcnt = (bl.getD b (buf0 0)).refcnt)
    (hl : v.locked = (bl.getD b (buf0 0)).locked) (y : Nat) :
    ((bl.set b v).getD y (buf0 0)).refcnt = (bl.getD y (buf0 0)).refcnt ∧
    ((bl.set b v).getD y (buf0 0)).locked = (bl.getD y (buf0 0)).locked := by
  by_cases hyb : y = b
  · subst hyb
    by_cases hlt : y < bl.length
    · rw [getD_set_self _ _ _ _ hlt]; exact ⟨hr, hl⟩
    · push_neg at hlt
      rw [getD_ge _ _ _ (by simpa using hlt), getD_ge _ _ _ hlt]
      exact ⟨rfl, rfl⟩
  · rw [getD_buf_set_ne _ _ _ _ hyb]; exact ⟨rfl, rfl⟩


/-! ### Well-formedness of the initial state -/

theorem countSum_replicate_nil (n i : Nat) :
    countSum (List.replicate n []) i = 0 := by
  induction n with
  | zero => rfl
  | succ m ih => rw [List.replicate_succ, countSum_cons]; simpa using ih

theorem count_range_ite (n i : Nat) :
    (List.range n).count i = if i < n then 1 else 0 := by
  by_cases h : i < n
  · rw [if_pos h]
    exact List.count_eq_one_of_mem (List.nodup_range n) (List.mem_range.2 h)
  · rw [if_neg h]
    exact List.count_eq_zero.2 (fun hm => h (List.mem_range.1 hm))

theorem getBuf_binit (n c t y : Nat) :
    (getBuf (binit n c t) y).refcnt = 0 ∧
    (getBuf (binit n c t) y).locked = false := by
  rw [getBuf_eq, binit_bufs]
  by_cases hy : y < n
  · rw [getD_lt _ _ _ (by simpa using hy)]
    simp [buf0]
  · push_neg at hy
    rw [getD_ge _ _ _ (by simpa using hy)]
    simp [buf0]

theorem occ_binit (nbuf ncpu ticks : Nat) (h : 0 < ncpu) (i : Nat) :
    occ (binit nbuf ncpu ticks) i = if i < nbuf then 1 else 0 := by
  have h0 : (0 : Nat) < (List.replicate ncpu ([] : List Nat)).length := by
    simpa using h
  have e := countSum_set (List.replicate ncpu []) 0 ((List.range nbuf).reverse) i h0
  rw [countSum_replicate_nil] at e
  have hg : (List.replicate ncpu ([] : List Nat)).getD 0 [] = [] := by
    rw [getD_lt _ _ _ h0]; simp
  rw [hg] at e
  simp only [List.count_nil] at e
  rw [List.count_reverse, count_range_ite] at e
  show countSum (List.replicate HASHSIZE []) i
    + countSum ((List.replicate ncpu []).set 0 ((List.range nbuf).reverse)) i
    = _
  rw [countSum_replicate_nil]
  omega

theorem wf_binit (nbuf ncpu ticks : Nat) (h : 0 < ncpu) :
    Wf (binit nbuf ncpu ticks) := by
  have hlen : (binit nbuf ncpu ticks).bufs.length = nbuf := by
    rw [binit_bufs, List.length_replicate]
  refine ⟨?_, ?_, ⟨?_, ?_⟩, ?_⟩
  · rw [binit_heads]; simp
  · intro i hi
    rw [hlen] at hi
    rw [occ_binit nbuf ncpu ticks h i, if_pos hi]
  · intro l hl x hx
    rw [binit_heads] at hl
    have := List.eq_of_mem_replicate hl
    subst this
    cases hx
  · intro l hl x hx
    rw [binit_freelist] at hl
    rw [hlen]
    rcases List.mem_or_eq_of_mem_set hl with h2 | rfl
    · have := List.eq_of_mem_replicate h2
      subst this
      cases hx
    · exact List.mem_range.1 (List.mem_reverse.1 hx)
  · intro l hl x hx
    exact getBuf_binit nbuf ncpu ticks x

/-! ### Well-formedness is preserved by a cache hit -/

theorem bucket_mem_heads (st : BCache) (i : Nat) (hi : i < st.heads.length) :
    bucket st i ∈ st.heads := by
  rw [bucket, getD_lt _ _ _ hi]
  exact List.getElem_mem hi

theorem pool_mem_freelist (st : BCache) (c : Nat) (hc : c < st.freelist.length) :
    pool st c ∈ st.freelist := by
  rw [pool, getD_lt _ _ _ hc]
  exact List.getElem_mem hc

theorem mem_bucket_not_free (st : BCache) (i b : Nat) (hwf : Wf st)
    (hi : i < st.heads.length) (hb : b ∈ bucket st i) :
    countSum st.freelist b = 0 ∧ b < st.bufs.length := by
  obtain ⟨h1, h2, h3, h4⟩ := hwf
  have hbm := bucket_mem_heads st i hi
  have hblt : b < st.bufs.length := h3.1 _ hbm _ hb
  have hocc : countSum st.heads b + countSum st.freelist b = 1 := h2 b hblt
  have hcnt : 0 < countSum st.heads b :=
    lt_of_lt_of_le (List.count_pos_iff.2 hb) (count_le_countSum _ _ _ hbm)
  exact ⟨by omega, hblt⟩

theorem wf_hitState (st : BCache) (i dev blockno b ticks : Nat) (hwf : Wf st)
    (hfind : findInBucket st i dev blockno = some b) (hi : i < st.heads.length) :
    Wf (hitState st b ticks) := by
  obtain ⟨hfr, hblt⟩ :=
    mem_bucket_not_free st i b hwf hi (List.mem_of_find?_eq_some hfind)
  obtain ⟨h1, h2, h3, h4⟩ := hwf
  refine ⟨?_, ?_, ⟨?_, ?_⟩, ?_⟩
  · rw [hitState_heads]; exact h1
  · intro j hj
    have hj2 : j < st.bufs.length := by
      simpa [hitState_bufs, List.length_set] using hj
    have he : occ (hitState st b ticks) j = occ st j := rfl
    rw [he]; exact h2 j hj2
  · intro l hl x hx
    rw [hitState_heads] at hl
    have := h3.1 l hl x hx
    show x < (hitState st b ticks).bufs.length
    rw [hitState_bufs, List.length_set]
    exact this
  · intro l hl x hx
    rw [hitState_freelist] at hl
    have := h3.2 l hl x hx
    show x < (hitState st b ticks).bufs.length
    rw [hitState_bufs, List.length_set]
    exact this
  · intro l hl x hx
    rw [hitState_freelist] at hl
    have hxb : x ≠ b := by
      intro e; subst e
      have : 0 < countSum st.freelist x :=
        lt_of_lt_of_le (List.count_pos_iff.2 hx) (count_le_countSum _ _ _ hl)
      omega
    have hgb : getBuf (hitState st b ticks) x = getBuf st x := by
      rw [getBuf_eq, hitState_bufs, getD_buf_set_ne _ _ _ _ hxb, ← getBuf_eq]
    rw [hgb]
    exact h4 l hl x hx


/-! ### Well-formedness is preserved by recycling -/

theorem getLast?_decomp (l : List Nat) (b : Nat) (h : l.getLast? = some b) :
    l = l.dropLast ++ [b] := by
  have hne : l ≠ [] := by intro e; subst e; simp at h
  have h2 := List.getLast?_eq_getLast l hne
  rw [h2] at h
  have h3 : l.getLast hne = b := Option.some.inj h
  rw [← h3]
  exact (List.dropLast_append_getLast hne).symm

theorem pool_nonempty_lt (st : BCache) (nc : Nat) (h : pool st nc ≠ []) :
    nc < st.freelist.length := by
  by_contra h2
  push_neg at h2
  exact h (by rw [pool, getD_ge _ _ _ h2])

theorem wf_recycleState (st : BCache) (nc i dev blockno b : Nat) (hwf : Wf st)
    (hb : (pool st nc).getLast? = some b) (hi : i < st.heads.length) :
    Wf (recycleState st nc i dev blockno b) := by
  obtain ⟨h1, h2, h3, h4⟩ := hwf
  have hne : pool st nc ≠ [] := by intro e; rw [e] at hb; simp at hb
  have hnc : nc < st.freelist.length := pool_nonempty_lt st nc hne
  have hdecomp := getLast?_decomp _ _ hb
  have hbm : b ∈ pool st nc := by rw [hdecomp]; simp
  have hpm : pool st nc ∈ st.freelist := pool_mem_freelist st nc hnc
  have hblt : b < st.bufs.length := h3.2 _ hpm _ hbm
  have hocc : countSum st.heads b + countSum st.freelist b = 1 := h2 b hblt
  have hpoolcnt : ∀ j, (pool st nc).count j
      = (pool st nc).dropLast.count j + (if j = b then 1 else 0) := by
    intro j
    conv_lhs => rw [hdecomp]
    rw [List.count_append, count_singleton_ite]
  have hg1 : st.heads.getD i [] = bucket st i := rfl
  have hg2 : st.freelist.getD nc [] = pool st nc := rfl
  have hoccEq : ∀ j, occ (recycleState st nc i dev blockno b) j = occ st j := by
    intro j
    have e1 := countSum_set st.heads i (b :: bucket st i) j hi
    have e2 := countSum_set st.freelist nc (pool st nc).dropLast j hnc
    rw [hg1, count_cons_ite] at e1
    rw [hg2] at e2
    have e3 := hpoolcnt j
    show countSum (st.heads.set i (b :: bucket st i)) j
        + countSum (st.freelist.set nc (pool st nc).dropLast) j
        = countSum st.heads j + countSum st.freelist j
    by_cases hjb : j = b
    · rw [if_pos hjb] at e1 e3; omega
    · rw [if_neg hjb] at e1 e3; omega
  have hfree0 : countSum (st.freelist.set nc (pool st nc).dropLast) b = 0 := by
    have e2 := countSum_set st.freelist nc (pool st nc).dropLast b hnc
    rw [hg2] at e2
    have e3 := hpoolcnt b
    rw [if_pos rfl] at e3
    have e4 : (pool st nc).count b ≤ countSum st.freelist b :=
      count_le_countSum _ _ _ hpm
    omega
  refine ⟨?_, ?_, ⟨?_, ?_⟩, ?_⟩
  · rw [recycleState_heads, List.length_set]; exact h1
  · intro j hj
    have hj2 : j < st.bufs.length := by
      simpa [recycleState_bufs, List.length_set] using hj
    rw [hoccEq j]; exact h2 j hj2
  · intro l hl x hx
    rw [recycleState_heads] at hl
    show x < (recycleState st nc i dev blockno b).bufs.length
    rw [recycleState_bufs, List.length_set]
    rcases List.mem_or_eq_of_mem_set hl with h5 | rfl
    · exact h3.1 l h5 x hx
    · rcases List.mem_cons.1 hx with rfl | h6
      · exact hblt
      · exact h3.1 _ (bucket_mem_heads st i hi) x h6
  · intro l hl x hx
    rw [recycleState_freelist] at hl
    show x < (recycleState st nc i dev blockno b).bufs.length
    rw [recycleState_bufs, List.length_set]
    rcases List.mem_or_eq_of_mem_set hl with h5 | rfl
    · exact h3.2 l h5 x hx
    · exact h3.2 _ hpm x (List.Sublist.mem hx (List.dropLast_sublist _))
  · intro l hl x hx
    rw [recycleState_freelist] at hl
    have hxb : x ≠ b := by
      intro e; subst e
      have : 0 < countSum (st.freelist.set nc (pool st nc).dropLast) x :=
        lt_of_lt_of_le (List.count_pos_iff.2 hx) (count_le_countSum _ _ _ hl)
      omega
    have hgb : getBuf (recycleState st nc i dev blockno b) x = getBuf st x := by
      rw [getBuf_eq, recycleState_bufs, getD_buf_set_ne _ _ _ _ hxb, ← getBuf_eq]
    rw [hgb]
    rcases List.mem_or_eq_of_mem_set hl with h5 | rfl
    · exact h4 l h5 x hx
    · exact h4 _ hpm x (List.Sublist.mem hx (List.dropLast_sublist _))


/-! ### Well-formedness is preserved by release -/

theorem wf_relStateKeep (st : BCache) (b : Nat) (hwf : Wf st)
    (hlock : (getBuf st b).locked = true) : Wf (relStateKeep st b) := by
  obtain ⟨h1, h2, h3, h4⟩ := hwf
  refine ⟨?_, ?_, ⟨?_, ?_⟩, ?_⟩
  · rw [relStateKeep_heads]; exact h1
  · intro j hj
    have hj2 : j < st.bufs.length := by
      simpa [relStateKeep_bufs, List.length_set] using hj
    have he : occ (relStateKeep st b) j = occ st j := rfl
    rw [he]; exact h2 j hj2
  · intro l hl x hx
    rw [relStateKeep_heads] at hl
    show x < (relStateKeep st b).bufs.length
    rw [relStateKeep_bufs, List.length_set]
    exact h3.1 l hl x hx
  · intro l hl x hx
    rw [relStateKeep_freelist] at hl
    show x < (relStateKeep st b).bufs.length
    rw [relStateKeep_bufs, List.length_set]
    exact h3.2 l hl x hx
  · intro l hl x hx
    rw [relStateKeep_freelist] at hl
    have hxb : x ≠ b := by
      intro e; subst e
      have h5 := (h4 l hl x hx).2
      rw [h5] at hlock
      simp at hlock
    have hgb : getBuf (relStateKeep st b) x = getBuf st x := by
      rw [getBuf_eq, relStateKeep_bufs, getD_buf_set_ne _ _ _ _ hxb, ← getBuf_eq]
    rw [hgb]
    exact h4 l hl x hx

theorem wf_relStateMove (st : BCache) (b cpu : Nat) (hwf : Wf st)
    (hlock : (getBuf st b).locked = true)
    (h0 : uintDec (getBuf st b).refcnt = 0)
    (hcpu : cpu < st.freelist.length) : Wf (relStateMove st b cpu) := by
  obtain ⟨h1, h2, h3, h4⟩ := hwf
  have hblt : b < st.bufs.length := locked_lt st b hlock
  have hocc : countSum st.heads b + countSum st.freelist b = 1 := h2 b hblt
  have hcpu2 : cpu < (st.freelist.map (fun l => l.erase b)).length := by
    rw [List.length_map]; exact hcpu
  have hpe : (st.freelist.map (fun l => l.erase b)).getD cpu []
      = (pool st cpu).erase b := by
    rw [getD_lt _ _ _ hcpu2, List.getElem_map, pool, getD_lt _ _ _ hcpu]
  have hoccEq : ∀ j, occ (relStateMove st b cpu) j = occ st j := by
    intro j
    have eSet := countSum_set (st.freelist.map (fun l => l.erase b)) cpu
      (b :: (st.freelist.map (fun l => l.erase b)).getD cpu []) j hcpu2
    rw [count_cons_ite] at eSet
    show countSum (st.heads.map (fun l => l.erase b)) j
        + countSum ((st.freelist.map (fun l => l.erase b)).set cpu
            (b :: (st.freelist.map (fun l => l.erase b)).getD cpu [])) j
        = countSum st.heads j + countSum st.freelist j
    by_cases hjb : j = b
    · subst hjb
      rw [if_pos rfl] at eSet
      have eH := countSum_map_erase_self st.heads j
      have eF := countSum_map_erase_self st.freelist j
      have hcHle := containCount_le st.heads j
      have hcFle := containCount_le st.freelist j
      by_cases hsH : 0 < countSum st.heads j
      · have hcH := containCount_pos st.heads j hsH
        omega
      · have hsF : 0 < countSum st.freelist j := by omega
        have hcF := containCount_pos st.freelist j hsF
        omega
    · rw [if_neg hjb] at eSet
      have eH := countSum_map_erase_ne st.heads b j hjb
      have eF := countSum_map_erase_ne st.freelist b j hjb
      omega
  refine ⟨?_, ?_, ⟨?_, ?_⟩, ?_⟩
  · rw [relStateMove_heads, List.length_map]; exact h1
  · intro j hj
    have hj2 : j < st.bufs.length := by
      simpa [relStateMove_bufs, relStateKeep_bufs, List.length_set] using hj
    rw [hoccEq j]; exact h2 j hj2
  · intro l hl x hx
    rw [relStateMove_heads] at hl
    show x < (relStateMove st b cpu).bufs.length
    rw [relStateMove_bufs, relStateKeep_bufs, List.length_set]
    obtain ⟨l0, hl0, rfl⟩ := List.mem_map.1 hl
    exact h3.1 l0 hl0 x (List.mem_of_mem_erase hx)
  · intro l hl x hx
    rw [relStateMove_freelist] at hl
    show x < (relStateMove st b cpu).bufs.length
    rw [relStateMove_bufs, relStateKeep_bufs, List.length_set]
    rcases List.mem_or_eq_of_mem_set hl with h5 | rfl
    · obtain ⟨l0, hl0, rfl⟩ := List.mem_map.1 h5
      exact h3.2 l0 hl0 x (List.mem_of_mem_erase hx)
    · rcases List.mem_cons.1 hx with rfl | h6
      · exact hblt
      · rw [hpe] at h6
        exact h3.2 _ (pool_mem_freelist st cpu hcpu) x (List.mem_of_mem_erase h6)
  · intro l hl x hx
    rw [relStateMove_freelist] at hl
    by_cases hxb : x = b
    · have hgb : getBuf (relStateMove st b cpu) b
          = { getBuf st b with
              locked := false, refcnt := uintDec (getBuf st b).refcnt } := by
        rw [getBuf_eq, relStateMove_bufs, relStateKeep_bufs,
          getD_set_self _ _ _ _ hblt]
      rw [hxb, hgb]
      exact ⟨h0, rfl⟩
    · have hgb : getBuf (relStateMove st b cpu) x = getBuf st x := by
        rw [getBuf_eq, relStateMove_bufs, relStateKeep_bufs,
          getD_buf_set_ne _ _ _ _ hxb, ← getBuf_eq]
      rw [hgb]
      rcases List.mem_or_eq_of_mem_set hl with h5 | rfl
      · obtain ⟨l0, hl0, rfl⟩ := List.mem_map.1 h5
        exact h4 l0 hl0 x (List.mem_of_mem_erase hx)
      · rcases List.mem_cons.1 hx with rfl | h6
        · exact absurd rfl hxb
        · rw [hpe] at h6
          exact h4 _ (pool_mem_freelist st cpu hcpu) x (List.mem_of_mem_erase h6)


/-! ### Inversion of the fallible operations -/

theorem tryShards_ok (st : BCache) (cpus : List Nat) (i dev blockno : Nat)
    (st' : BCache) (b : Nat)
    (h : tryShards st cpus i dev blockno = .ok (st', b)) :
    ∃ nc, (pool st nc).getLast? = some b ∧ (getBuf st b).refcnt = 0 ∧
      st' = recycleState st nc i dev blockno b := by
  induction cpus with
  | nil =>
    rw [tryShards_nil] at h
    simp at h
  | cons nc rest ih =>
    cases hr : recycleFrom st nc i dev blockno with
    | none =>
      rw [tryShards_cons_none st nc rest i dev blockno hr] at h
      exact ih h
    | some r =>
      rw [tryShards_cons_some st nc rest i dev blockno r hr] at h
      subst h
      cases hb : (pool st nc).getLast? with
      | none =>
        rw [recycleFrom_none st nc i dev blockno hb] at hr
        cases hr
      | some b0 =>
        by_cases h0 : (getBuf st b0).refcnt ≠ 0
        · rw [recycleFrom_panic st nc i dev blockno b0 hb h0] at hr
          simp at hr
        · push_neg at h0
          rw [recycleFrom_take st nc i dev blockno b0 hb h0] at hr
          simp at hr
          obtain ⟨h4, h5⟩ := hr
          subst h5
          exact ⟨nc, hb, h0, h4.symm⟩

theorem tryShards_all_empty (st : BCache) (cpus : List Nat) (i dev blockno : Nat)
    (h : ∀ l ∈ st.freelist, l = []) :
    tryShards st cpus i dev blockno = .error .noBuffers := by
  induction cpus with
  | nil => exact tryShards_nil st i dev blockno
  | cons nc rest ih =>
    have hp : (pool st nc).getLast? = none := by
      have he : pool st nc = [] := by
        by_cases hnc : nc < st.freelist.length
        · exact h _ (pool_mem_freelist st nc hnc)
        · push_neg at hnc
          rw [pool, getD_ge _ _ _ hnc]
      rw [he]; rfl
    rw [tryShards_cons_none st nc rest i dev blockno
      (recycleFrom_none st nc i dev blockno hp)]
    exact ih

theorem hash_lt (dev blockno : Nat) : hash dev blockno < HASHSIZE :=
  Nat.mod_lt _ (by decide)

theorem bget_ok_inv (dev blockno cpu ticks : Nat) (st st' : BCache) (b : Nat)
    (h : bget dev blockno cpu ticks st = .ok (st', b)) :
    (findInBucket st (hash dev blockno) dev blockno = some b
      ∧ st' = hitState st b ticks)
    ∨ (findInBucket st (hash dev blockno) dev blockno = none
      ∧ ∃ nc, (pool st nc).getLast? = some b ∧ (getBuf st b).refcnt = 0
          ∧ st' = recycleState st nc (hash dev blockno) dev blockno b) := by
  cases hf : findInBucket st (hash dev blockno) dev blockno with
  | some b0 =>
    rw [bget_hit st dev blockno cpu ticks b0 hf] at h
    simp at h
    obtain ⟨h4, h5⟩ := h
    subst h5
    exact Or.inl ⟨rfl, h4.symm⟩
  | none =>
    rw [bget_miss st dev blockno cpu ticks hf] at h
    exact Or.inr ⟨rfl, tryShards_ok _ _ _ _ _ _ _ h⟩

theorem wf_bget_ok (dev blockno cpu ticks : Nat) (st st' : BCache) (b : Nat)
    (hwf : Wf st) (h : bget dev blockno cpu ticks st = .ok (st', b)) :
    Wf st' ∧ b < st.bufs.length ∧ st'.bufs.length = st.bufs.length := by
  have hh : hash dev blockno < st.heads.length := by
    rw [hwf.1]; exact hash_lt dev blockno
  rcases bget_ok_inv dev blockno cpu ticks st st' b h with
    ⟨hf, rfl⟩ | ⟨hf, nc, hlast, hr0, rfl⟩
  · refine ⟨wf_hitState st _ dev blockno b ticks hwf hf hh, ?_, ?_⟩
    · exact (mem_bucket_not_free st _ b hwf hh
        (List.mem_of_find?_eq_some hf)).2
    · rw [hitState_bufs, List.length_set]
  · refine ⟨wf_recycleState st nc _ dev blockno b hwf hlast hh, ?_, ?_⟩
    · have hne : pool st nc ≠ [] := by
        intro e; rw [e] at hlast; simp at hlast
      have hnc := pool_nonempty_lt st nc hne
      have hbm : b ∈ pool st nc := by
        rw [getLast?_decomp _ _ hlast]; simp
      exact hwf.2.2.1.2 _ (pool_mem_freelist st nc hnc) _ hbm
    · rw [recycleState_bufs, List.length_set]

theorem bread_err (st : BCache) (dev blockno cpu ticks dat : Nat) (e : Fault)
    (h : bget dev blockno cpu ticks st = .error e) :
    bread dev blockno cpu ticks dat st = .error e := by
  unfold bread; rw [h]

theorem bread_ok_inv (dev blockno cpu ticks dat : Nat) (st st' : BCache)
    (b : Nat) (h : bread dev blockno cpu ticks dat st = .ok (st', b)) :
    ∃ st1, bget dev blockno cpu ticks st = .ok (st1, b) ∧
      ((getBuf st1 b).valid = true ∧ st' = st1 ∨
       (getBuf st1 b).valid = false ∧
         st' = { st1 with bufs := st1.bufs.set b { getBuf st1 b with data := dat, valid := true } }) := by
  cases hg : bget dev blockno cpu ticks st with
  | error e =>
    rw [bread_err st dev blockno cpu ticks dat e hg] at h
    simp at h
  | ok p =>
    obtain ⟨st1, b0⟩ := p
    by_cases hv : (getBuf st1 b0).valid = true
    · rw [bread_ok_valid st st1 dev blockno cpu ticks dat b0 hg hv] at h
      simp at h
      obtain ⟨h4, h5⟩ := h
      subst h5
      exact ⟨st1, rfl, Or.inl ⟨hv, h4.symm⟩⟩
    · have hv2 : (getBuf st1 b0).valid = false := by simpa using hv
      rw [bread_ok_invalid st st1 dev blockno cpu ticks dat b0 hg hv2] at h
      simp at h
      obtain ⟨h4, h5⟩ := h
      subst h5
      exact ⟨st1, rfl, Or.inr ⟨hv2, h4.symm⟩⟩

/-- A patch of one slot that keeps its refcnt and lock state keeps Wf. -/
theorem wf_patch (st st' : BCache) (b : Nat) (v : Buf) (hwf : Wf st)
    (hh : st'.heads = st.heads) (hf : st'.freelist = st.freelist)
    (hb : st'.bufs = st.bufs.set b v)
    (hr : v.refcnt = (getBuf st b).refcnt)
    (hl : v.locked = (getBuf st b).locked) : Wf st' := by
  obtain ⟨h1, h2, h3, h4⟩ := hwf
  have hocc : ∀ j, occ st' j = occ st j := by
    intro j
    unfold occ
    rw [hh, hf]
  have hlen : st'.bufs.length = st.bufs.length := by
    rw [hb, List.length_set]
  have hget := getD_buf_set_fields st.bufs b v
    (by rw [hr, getBuf_eq]) (by rw [hl, getBuf_eq])
  refine ⟨by rw [hh]; exact h1, ?_, ⟨?_, ?_⟩, ?_⟩
  · intro j hj
    rw [hlen] at hj
    rw [hocc j]
    exact h2 j hj
  · intro l hl2 x hx
    rw [hh] at hl2
    rw [hlen]
    exact h3.1 l hl2 x hx
  · intro l hl2 x hx
    rw [hf] at hl2
    rw [hlen]
    exact h3.2 l hl2 x hx
  · intro l hl2 x hx
    rw [hf] at hl2
    have h5 := h4 l hl2 x hx
    have h6 := hget x
    constructor
    · rw [getBuf_eq, hb, h6.1, ← getBuf_eq]
      exact h5.1
    · rw [getBuf_eq, hb, h6.2, ← getBuf_eq]
      exact h5.2

theorem wf_bread_ok (dev blockno cpu ticks dat : Nat) (st st' : BCache)
    (b : Nat) (hwf : Wf st)
    (h : bread dev blockno cpu ticks dat st = .ok (st', b)) :
    Wf st' ∧ b < st.bufs.length ∧ st'.bufs.length = st.bufs.length := by
  obtain ⟨st1, hg, hcase⟩ := bread_ok_inv dev blockno cpu ticks dat st st' b h
  obtain ⟨hwf1, hblt, hlen1⟩ := wf_bget_ok dev blockno cpu ticks st st1 b hwf hg
  rcases hcase with ⟨hv, rfl⟩ | ⟨hv, rfl⟩
  · exact ⟨hwf1, hblt, hlen1⟩
  · refine ⟨wf_patch st1 _ b _ hwf1 rfl rfl rfl rfl rfl, hblt, ?_⟩
    show (st1.bufs.set b _).length = st.bufs.length
    rw [List.length_set]
    exact hlen1

theorem brelse_ok_inv (st st' : BCache) (b cpu : Nat)
    (h : brelse b cpu st = .ok st') :
    (getBuf st b).locked = true ∧
    ((uintDec (getBuf st b).refcnt = 0 ∧ st' = relStateMove st b cpu) ∨
     (uintDec (getBuf st b).refcnt ≠ 0 ∧ st' = relStateKeep st b)) := by
  by_cases hlock : (getBuf st b).locked = true
  · by_cases h0 : uintDec (getBuf st b).refcnt = 0
    · rw [brelse_move st b cpu hlock h0] at h
      simp at h
      exact ⟨hlock, Or.inl ⟨h0, h.symm⟩⟩
    · rw [brelse_keep st b cpu hlock h0] at h
      simp at h
      exact ⟨hlock, Or.inr ⟨h0, h.symm⟩⟩
  · have hl2 : (getBuf st b).locked = false := by simpa using hlock
    rw [brelse_not_locked st b cpu hl2] at h
    simp at h

theorem wf_brelse_ok (st st' : BCache) (b cpu : Nat) (hwf : Wf st)
    (hcpu : cpu < st.freelist.length) (h : brelse b cpu st = .ok st') :
    Wf st' := by
  obtain ⟨hlock, hcase⟩ := brelse_ok_inv st st' b cpu h
  rcases hcase with ⟨h0, rfl⟩ | ⟨h0, rfl⟩
  · exact wf_relStateMove st b cpu hwf hlock h0 hcpu
  · exact wf_relStateKeep st b hwf hlock

/-- Every reachable state satisfies the structural invariant. -/
theorem reach_wf (st : BCache) (h : Reach st) : Wf st := by
  induction h with
  | init nbuf ncpu ticks hc => exact wf_binit nbuf ncpu ticks hc
  | fetch st1 st2 b dev blockno cpu ticks dat hr hs ih =>
    exact (wf_bread_ok dev blockno cpu ticks dat st1 st2 b ih hs).1
  | rel st1 st2 b cpu hr hc hs ih => exact wf_brelse_ok st1 st2 b cpu ih hc hs

/-- In a well-formed state the total length of all lists is the slot count. -/
theorem totalLen_of_wf (st : BCache) (hwf : Wf st) :
    totalLen st = st.bufs.length := by
  obtain ⟨h1, h2, h3, h4⟩ := hwf
  have hcount : ∀ a, (st.heads.flatten ++ st.freelist.flatten).count a
      = (List.range st.bufs.length).count a := by
    intro a
    rw [List.count_append, List.count_flatten, List.count_flatten,
      count_range_ite]
    have e1 : (List.map (List.count a) st.heads).sum = countSum st.heads a := rfl
    have e2 : (List.map (List.count a) st.freelist).sum
      = countSum st.freelist a := rfl
    rw [e1, e2]
    by_cases ha : a < st.bufs.length
    · rw [if_pos ha]
      exact h2 a ha
    · rw [if_neg ha]
      by_contra hne
      have hpos : 0 < countSum st.heads a ∨ 0 < countSum st.freelist a := by
        omega
      rcases hpos with hp | hp
      · obtain ⟨l, hl, hal⟩ := countSum_pos_exists _ _ hp
        exact ha (h3.1 l hl a hal)
      · obtain ⟨l, hl, hal⟩ := countSum_pos_exists _ _ hp
        exact ha (h3.2 l hl a hal)
  have hperm : (st.heads.flatten ++ st.freelist.flatten).Perm
      (List.range st.bufs.length) := List.perm_iff_count.2 hcount
  have hlen := hperm.length_eq
  rw [List.length_append, List.length_flatten, List.length_flatten,
    List.length_range] at hlen
  exact hlen


/-! ### Claim theorems -/

/-- C1: in every state reachable by initialize/fetch/release, each of the
NBUF slots is linked into exactly one list (exactly one bucket list or
exactly one free pool, never both and never neither), no list entry is
outside the slot range, and the total entry count over all bucket lists and
free pools equals NBUF. -/
theorem reach_slots_in_exactly_one_list (st : BCache) (h : Reach st) :
    (∀ i < st.bufs.length, occ st i = 1) ∧
    (∀ i, occ st i ≠ 0 → i < st.bufs.length) ∧
    totalLen st = st.bufs.length := by
  have hwf := reach_wf st h
  refine ⟨hwf.2.1, ?_, totalLen_of_wf st hwf⟩
  intro i hi
  by_contra h2
  push_neg at h2
  have h3 : countSum st.heads i + countSum st.freelist i ≠ 0 := hi
  have hpos : 0 < countSum st.heads i ∨ 0 < countSum st.freelist i := by omega
  rcases hpos with hp | hp
  · obtain ⟨l, hl, hal⟩ := countSum_pos_exists _ _ hp
    exact absurd (hwf.2.2.1.1 l hl i hal) (by omega)
  · obtain ⟨l, hl, hal⟩ := countSum_pos_exists _ _ hp
    exact absurd (hwf.2.2.1.2 l hl i hal) (by omega)

/-- C1 witness: the invariant instantiated at the freshly initialised
two-slot, one-CPU cache. -/
theorem reach_slots_in_exactly_one_list_witness :
    occ (binit 2 1 0) 0 = 1 ∧ occ (binit 2 1 0) 1 = 1 ∧
    totalLen (binit 2 1 0) = (binit 2 1 0).bufs.length :=
  ⟨(reach_slots_in_exactly_one_list (binit 2 1 0)
      (Reach.init 2 1 0 (by decide))).1 0 (by decide),
   (reach_slots_in_exactly_one_list (binit 2 1 0)
      (Reach.init 2 1 0 (by decide))).1 1 (by decide),
   (reach_slots_in_exactly_one_list (binit 2 1 0)
      (Reach.init 2 1 0 (by decide))).2.2⟩

/-- C2: in every reachable state every slot on a free pool has refcnt 0;
and whenever the recycle scan finds a free-pool slot with nonzero refcnt it
halts with the freelistNotFree fault (panic "bget: freelist is not free!")
instead of recycling. -/
theorem freepool_refcnt_zero_and_fatal :
    (∀ st, Reach st → ∀ l ∈ st.freelist, ∀ b ∈ l,
      (getBuf st b).refcnt = 0) ∧
    (∀ st nc i dev blockno b, (pool st nc).getLast? = some b →
      (getBuf st b).refcnt ≠ 0 →
      recycleFrom st nc i dev blockno = some (.error .freelistNotFree)) := by
  constructor
  · intro st h l hl b hb
    exact ((reach_wf st h).2.2.2 l hl b hb).1
  · intro st nc i dev blockno b hlast hr
    exact recycleFrom_panic st nc i dev blockno b hlast hr

/-- C2 witness: slot 0 on the initial free list has refcnt 0, and on a
corrupt state whose free-pool tail slot has refcnt 1 the recycle scan
faults. -/
theorem freepool_refcnt_zero_and_fatal_witness :
    (getBuf (binit 2 1 0) 0).refcnt = 0 ∧
    recycleFrom badState 0 5 7 9 = some (.error .freelistNotFree) :=
  ⟨freepool_refcnt_zero_and_fatal.1 (binit 2 1 0)
      (Reach.init 2 1 0 (by decide)) [1, 0] (by decide) 0 (by decide),
   freepool_refcnt_zero_and_fatal.2 badState 0 5 7 9 0 (by decide) (by decide)⟩

/-- C3 counterexample: in the reachable state demo2 the bucket list is
[1, 0]; a fetch of (dev 1, block 0) hits slot 0, which is not at the bucket
head, and after the hit the bucket list is still [1, 0]: the hit does NOT
move the slot to the most-recently-used position, contradicting the claim.
-/
theorem hit_not_moved_to_head_cex :
    Reach demo2 ∧
    findInBucket demo2 (hash 1 0) 1 0 = some 0 ∧
    okSlot (bget 1 0 0 3 demo2) = 0 ∧
    bucket (okState (bget 1 0 0 3 demo2)) (hash 1 0) = [1, 0] ∧
    (bucket (okState (bget 1 0 0 3 demo2)) (hash 1 0)).head? ≠ some 0 := by
  refine ⟨?_, by decide, by decide, by decide, by decide⟩
  have h1 : Reach (binit 2 1 0) := Reach.init 2 1 0 (by decide)
  have h2 : Reach demo1 := Reach.fetch (binit 2 1 0) demo1 0 1 0 0 1 100 h1 rfl
  exact Reach.fetch demo1 demo2 1 1 13 0 2 200 h2 rfl

/-- C3 (amended): on a cache hit, bget increments the slot's refcnt,
updates its recency timestamp, acquires its content lock and reports the
hit, but leaves the bucket lists and free lists (hence the slot's position
within its bucket) unchanged: the slot is not moved to the bucket head. -/
theorem bget_hit_refcnt_timestamp_no_move (st : BCache)
    (dev blockno cpu ticks b : Nat)
    (hfind : findInBucket st (hash dev blockno) dev blockno = some b)
    (hb : b < st.bufs.length) :
    bget dev blockno cpu ticks st = .ok (hitState st b ticks, b) ∧
    (hitState st b ticks).heads = st.heads ∧
    (hitState st b ticks).freelist = st.freelist ∧
    (getBuf (hitState st b ticks) b).refcnt
      = ((getBuf st b).refcnt + 1) % UINTMOD ∧
    (getBuf (hitState st b ticks) b).timestamp = ticks ∧
    (getBuf (hitState st b ticks) b).locked = true := by
  refine ⟨bget_hit st dev blockno cpu ticks b hfind, rfl, rfl, ?_, ?_, ?_⟩
  · rw [getBuf_eq, hitState_bufs, getD_set_self _ _ _ _ hb]
  · rw [getBuf_eq, hitState_bufs, getD_set_self _ _ _ _ hb]
  · rw [getBuf_eq, hitState_bufs, getD_set_self _ _ _ _ hb]

/-- C3 witness: the amended hit behaviour at the concrete state demo2. -/
theorem bget_hit_refcnt_timestamp_no_move_witness :
    bget 1 0 0 3 demo2 = .ok (hitState demo2 0 3, 0) ∧
    (hitState demo2 0 3).heads = demo2.heads ∧
    (hitState demo2 0 3).freelist = demo2.freelist ∧
    (getBuf (hitState demo2 0 3) 0).refcnt
      = ((getBuf demo2 0).refcnt + 1) % UINTMOD ∧
    (getBuf (hitState demo2 0 3) 0).timestamp = 3 ∧
    (getBuf (hitState demo2 0 3) 0).locked = true :=
  bget_hit_refcnt_timestamp_no_move demo2 1 0 0 3 0 (by decide) (by decide)


/-- C4: brelse pushes a slot whose refcnt reached zero at the HEAD of the
free pool, and recycling takes from the TAIL (least recently freed).
Concretely on a two-slot pool: block 0 (A, slot 0) and block 13 (B, slot 1)
are cached then released, A before B, leaving the pool [1, 0] with B's slot
at the head; fetching the distinct block 26 (C) recycles slot 0 — the slot
that last held A — and retags it with block 26. -/
theorem freelist_lru_order_scenario :
    brelse 0 0 demo2 = .ok demo3 ∧
    brelse 1 0 demo3 = .ok demo4 ∧
    pool demo4 0 = [1, 0] ∧
    (getBuf demo4 0).dev = 1 ∧ (getBuf demo4 0).blockno = 0 ∧
    (getBuf demo4 1).dev = 1 ∧ (getBuf demo4 1).blockno = 13 ∧
    okSlot (bget 1 26 0 9 demo4) = 0 ∧
    (getBuf (okState (bget 1 26 0 9 demo4)) 0).blockno = 26 :=
  ⟨rfl, rfl, by decide, by decide, by decide, by decide, by decide,
   by decide, by decide⟩

/-- C5: on a miss, bget recycles a free slot, inserts it at the head of the
target bucket with identity (dev, blockno), valid false and refcnt 1; bread
then reads the block synchronously and marks the slot valid, so the slot it
returns is valid. -/
theorem miss_recycle_insert_and_read_valid (st stm st' : BCache)
    (dev blockno cpu ticks dat b bb : Nat) (hwf : Wf st)
    (hmiss : findInBucket st (hash dev blockno) dev blockno = none)
    (hget : bget dev blockno cpu ticks st = .ok (stm, b))
    (hread : bread dev blockno cpu ticks dat st = .ok (st', bb)) :
    bb = b ∧
    (bucket stm (hash dev blockno)).head? = some b ∧
    (getBuf stm b).dev = dev ∧ (getBuf stm b).blockno = blockno ∧
    (getBuf stm b).valid = false ∧ (getBuf stm b).refcnt = 1 ∧
    (bucket st' (hash dev blockno)).head? = some b ∧
    (getBuf st' b).valid = true := by
  obtain ⟨st1, hg2, hcase⟩ := bread_ok_inv dev blockno cpu ticks dat st st' bb hread
  rw [hget] at hg2
  simp at hg2
  obtain ⟨h4, h5⟩ := hg2
  subst h4
  subst h5
  have hi : hash dev blockno < st.heads.length := by
    rw [hwf.1]; exact hash_lt dev blockno
  obtain ⟨hwfm, hblt, hlenm⟩ := wf_bget_ok dev blockno cpu ticks st stm b hwf hget
  have hbltm : b < stm.bufs.length := by omega
  rcases bget_ok_inv dev blockno cpu ticks st stm b hget with
    ⟨hf, _⟩ | ⟨_, nc, hlast, hr0, hstm⟩
  · rw [hmiss] at hf
    cases hf
  · have hbucket : bucket stm (hash dev blockno)
        = b :: bucket st (hash dev blockno) := by
      rw [hstm, bucket, recycleState_heads, getD_set_self _ _ _ _ hi]
    have hgetb : getBuf stm b
        = { getBuf st b with
            dev := dev, blockno := blockno, valid := false,
            refcnt := 1, locked := true } := by
      rw [hstm, getBuf_eq, recycleState_bufs, getD_set_self _ _ _ _ hblt]
    have hst' : (bucket st' (hash dev blockno)).head? = some b ∧
        (getBuf st' b).valid = true := by
      rcases hcase with ⟨hv, rfl⟩ | ⟨hv, rfl⟩
      · rw [hgetb] at hv
        simp at hv
      · constructor
        · have e : bucket { stm with bufs := stm.bufs.set b { getBuf stm b with data := dat, valid := true } } (hash dev blockno) = bucket stm (hash dev blockno) := rfl
          rw [e, hbucket]
          rfl
        · have e : getBuf { stm with bufs := stm.bufs.set b { getBuf stm b with data := dat, valid := true } } b = { getBuf stm b with data := dat, valid := true } := by
            rw [getBuf_eq]
            exact getD_set_self _ _ _ _ hbltm
          rw [e]
    exact ⟨rfl, by rw [hbucket]; rfl, by rw [hgetb], by rw [hgetb],
      by rw [hgetb], by rw [hgetb], hst'.1, hst'.2⟩

/-- C5 witness: the miss path at a freshly initialised one-slot cache. -/
theorem miss_recycle_insert_and_read_valid_witness :
    (0 : Nat) = 0 ∧
    (bucket (okState (bget 1 0 0 5 (binit 1 1 0))) (hash 1 0)).head? = some 0 ∧
    (getBuf (okState (bget 1 0 0 5 (binit 1 1 0))) 0).dev = 1 ∧
    (getBuf (okState (bget 1 0 0 5 (binit 1 1 0))) 0).blockno = 0 ∧
    (getBuf (okState (bget 1 0 0 5 (binit 1 1 0))) 0).valid = false ∧
    (getBuf (okState (bget 1 0 0 5 (binit 1 1 0))) 0).refcnt = 1 ∧
    (bucket (okState (bread 1 0 0 5 100 (binit 1 1 0))) (hash 1 0)).head? = some 0 ∧
    (getBuf (okState (bread 1 0 0 5 100 (binit 1 1 0))) 0).valid = true :=
  miss_recycle_insert_and_read_valid (binit 1 1 0)
    (okState (bget 1 0 0 5 (binit 1 1 0)))
    (okState (bread 1 0 0 5 100 (binit 1 1 0)))
    1 0 0 5 100 0 0 (wf_binit 1 1 0 (by decide)) (by decide) rfl rfl

/-- C6: brelse without the content lock is the notHolding fault; with the
lock held it releases the lock, decrements refcnt, and moves the slot to
the head of the current CPU's free pool exactly when the decremented refcnt
is zero (unlinking it from every bucket list), touching no list otherwise.
-/
theorem brelse_spec (st : BCache) (b cpu : Nat) :
    ((getBuf st b).locked = false → brelse b cpu st = .error .notHolding) ∧
    ((getBuf st b).locked = true → uintDec (getBuf st b).refcnt = 0 →
      cpu < st.freelist.length →
      brelse b cpu st = .ok (relStateMove st b cpu) ∧
      (getBuf (relStateMove st b cpu) b).locked = false ∧
      (getBuf (relStateMove st b cpu) b).refcnt
        = uintDec (getBuf st b).refcnt ∧
      (pool (relStateMove st b cpu) cpu).head? = some b ∧
      (relStateMove st b cpu).heads = st.heads.map (fun l => l.erase b)) ∧
    ((getBuf st b).locked = true → uintDec (getBuf st b).refcnt ≠ 0 →
      brelse b cpu st = .ok (relStateKeep st b) ∧
      (getBuf (relStateKeep st b) b).locked = false ∧
      (getBuf (relStateKeep st b) b).refcnt
        = uintDec (getBuf st b).refcnt ∧
      (relStateKeep st b).heads = st.heads ∧
      (relStateKeep st b).freelist = st.freelist) := by
  refine ⟨brelse_not_locked st b cpu, ?_, ?_⟩
  · intro hlock h0 hcpu
    have hblt := locked_lt st b hlock
    refine ⟨brelse_move st b cpu hlock h0, ?_, ?_, ?_, relStateMove_heads st b cpu⟩
    · rw [getBuf_eq, relStateMove_bufs, relStateKeep_bufs,
        getD_set_self _ _ _ _ hblt]
    · rw [getBuf_eq, relStateMove_bufs, relStateKeep_bufs,
        getD_set_self _ _ _ _ hblt]
    · have hcpu2 : cpu < (st.freelist.map (fun l => l.erase b)).length := by
        rw [List.length_map]; exact hcpu
      rw [pool, relStateMove_freelist, getD_set_self _ _ _ _ hcpu2]
      rfl
  · intro hlock h0
    have hblt := locked_lt st b hlock
    refine ⟨brelse_keep st b cpu hlock h0, ?_, ?_, rfl, rfl⟩
    · rw [getBuf_eq, relStateKeep_bufs, getD_set_self _ _ _ _ hblt]
    · rw [getBuf_eq, relStateKeep_bufs, getD_set_self _ _ _ _ hblt]

/-- C6 witness: the fault on an unlocked slot, the move path on a locked
slot with refcnt 1, and the keep path on a pinned slot with refcnt 2. -/
theorem brelse_spec_witness :
    brelse 0 0 (binit 1 1 0) = .error .notHolding ∧
    (brelse 0 0 relDemo = .ok (relStateMove relDemo 0 0) ∧
      (getBuf (relStateMove relDemo 0 0) 0).locked = false ∧
      (getBuf (relStateMove relDemo 0 0) 0).refcnt
        = uintDec (getBuf relDemo 0).refcnt ∧
      (pool (relStateMove relDemo 0 0) 0).head? = some 0 ∧
      (relStateMove relDemo 0 0).heads
        = relDemo.heads.map (fun l => l.erase 0)) ∧
    (brelse 0 0 relDemoPinned = .ok (relStateKeep relDemoPinned 0) ∧
      (getBuf (relStateKeep relDemoPinned 0) 0).locked = false ∧
      (getBuf (relStateKeep relDemoPinned 0) 0).refcnt
        = uintDec (getBuf relDemoPinned 0).refcnt ∧
      (relStateKeep relDemoPinned 0).heads = relDemoPinned.heads ∧
      (relStateKeep relDemoPinned 0).freelist = relDemoPinned.freelist) :=
  ⟨(brelse_spec (binit 1 1 0) 0 0).1 (by decide),
   (brelse_spec relDemo 0 0).2.1 (by decide) (by decide) (by decide),
   (brelse_spec relDemoPinned 0 0).2.2 (by decide) (by decide)⟩

/-- C7: when the lookup misses and every CPU's free pool is empty, bget is
the fatal noBuffers fault ("bget: no buffers"): it neither returns a slot
nor waits. -/
theorem bget_exhaustion_fatal (st : BCache) (dev blockno cpu ticks : Nat)
    (hmiss : findInBucket st (hash dev blockno) dev blockno = none)
    (hempty : ∀ l ∈ st.freelist, l = []) :
    bget dev blockno cpu ticks st = .error .noBuffers := by
  rw [bget_miss st dev blockno cpu ticks hmiss]
  exact tryShards_all_empty st _ _ _ _ hempty

/-- C7 witness: a zero-slot three-CPU cache exhausts immediately. -/
theorem bget_exhaustion_fatal_witness :
    bget 2 5 1 7 (binit 0 3 0) = .error .noBuffers :=
  bget_exhaustion_fatal (binit 0 3 0) 2 5 1 7 (by decide) (by decide)

/-- C8: bwrite without the content lock is the notHolding fault; with it
held, bwrite appends the slot's (dev, blockno, payload) to the device write
log and leaves the slots (hence valid, refcnt and the lock) and both list
structures unchanged. -/
theorem bwrite_spec (st : BCache) (b : Nat) :
    ((getBuf st b).locked = false → bwrite b st = .error .notHolding) ∧
    ((getBuf st b).locked = true →
      bwrite b st = .ok (bwriteState st b) ∧
      (bwriteState st b).bufs = st.bufs ∧
      (bwriteState st b).heads = st.heads ∧
      (bwriteState st b).freelist = st.freelist ∧
      (bwriteState st b).dwrites = st.dwrites ++
        [((getBuf st b).dev, (getBuf st b).blockno, (getBuf st b).data)]) := by
  constructor
  · intro h
    unfold bwrite
    rw [if_neg (by simp [h])]
  · intro h
    refine ⟨?_, rfl, rfl, rfl, rfl⟩
    unfold bwrite
    rw [if_pos h]
    rfl

/-- C8 witness: bwrite on the locked slot of relDemo and the fault on the
unlocked slot of the initial state. -/
theorem bwrite_spec_witness :
    bwrite 0 (binit 1 1 0) = .error .notHolding ∧
    (bwrite 0 relDemo = .ok (bwriteState relDemo 0) ∧
      (bwriteState relDemo 0).bufs = relDemo.bufs ∧
      (bwriteState relDemo 0).heads = relDemo.heads ∧
      (bwriteState relDemo 0).freelist = relDemo.freelist ∧
      (bwriteState relDemo 0).dwrites = relDemo.dwrites ++
        [((getBuf relDemo 0).dev, (getBuf relDemo 0).blockno,
          (getBuf relDemo 0).data)]) :=
  ⟨(bwrite_spec (binit 1 1 0) 0).1 (by decide),
   (bwrite_spec relDemo 0).2 (by decide)⟩

/-- C9: bunpin only decrements the slot's refcnt: the bucket lists, free
lists and write log are untouched — even when the decrement reaches zero
the slot stays in its bucket and is never moved to a free pool. -/
theorem bunpin_frame (st : BCache) (b : Nat) :
    (bunpin b st).heads = st.heads ∧
    (bunpin b st).freelist = st.freelist ∧
    (bunpin b st).dwrites = st.dwrites ∧
    (bunpin b st).bufs = st.bufs.set b
      { getBuf st b with refcnt := uintDec (getBuf st b).refcnt } ∧
    (b < st.bufs.length →
      getBuf (bunpin b st) b
        = { getBuf st b with refcnt := uintDec (getBuf st b).refcnt }) := by
  refine ⟨rfl, rfl, rfl, rfl, ?_⟩
  intro h
  rw [getBuf_eq]
  exact getD_set_self _ _ _ _ h

/-- C9 witness: bunpin on relDemo's slot 0 brings refcnt from 1 to 0 yet
the lists are unchanged and the slot keeps its bucket position. -/
theorem bunpin_frame_witness :
    (bunpin 0 relDemo).heads = relDemo.heads ∧
    (bunpin 0 relDemo).freelist = relDemo.freelist ∧
    getBuf (bunpin 0 relDemo) 0
      = { getBuf relDemo 0 with refcnt := uintDec (getBuf relDemo 0).refcnt } ∧
    uintDec (getBuf relDemo 0).refcnt = 0 :=
  ⟨(bunpin_frame relDemo 0).1, (bunpin_frame relDemo 0).2.1,
   (bunpin_frame relDemo 0).2.2.2.2 (by decide), by decide⟩

/-- C10: bunpin checks nothing: on a slot with refcnt 0 (and no lock held)
it silently wraps the unsigned count to 2^32 - 1 instead of faulting, and
still changes no list. -/
theorem bunpin_no_check_wraps (st : BCache) (b : Nat)
    (hb : b < st.bufs.length) (h0 : (getBuf st b).refcnt = 0) :
    (getBuf (bunpin b st) b).refcnt = UINTMOD - 1 ∧
    (bunpin b st).heads = st.heads ∧
    (bunpin b st).freelist = st.freelist := by
  refine ⟨?_, rfl, rfl⟩
  have e : getBuf (bunpin b st) b
      = { getBuf st b with refcnt := uintDec (getBuf st b).refcnt } := by
    rw [getBuf_eq]
    exact getD_set_self _ _ _ _ hb
  rw [e]
  show uintDec (getBuf st b).refcnt = UINTMOD - 1
  rw [h0]
  decide

/-- C10 witness: bunpin on the freshly initialised slot (refcnt 0, lock
free) wraps to 4294967295 without any fault. -/
theorem bunpin_no_check_wraps_witness :
    (getBuf (bunpin 0 (binit 1 1 0)) 0).refcnt = UINTMOD - 1 ∧
    (bunpin 0 (binit 1 1 0)).heads = (binit 1 1 0).heads ∧
    (bunpin 0 (binit 1 1 0)).freelist = (binit 1 1 0).freelist :=
  bunpin_no_check_wraps (binit 1 1 0) 0 (by decide) (by decide)

end Bio
